import Mathlib

/-!
Shallow embedding of the finance-ledger application (src/app.py).

The embedding models:
* the `transactions` table as a list of `Record`s together with the next
  AUTOINCREMENT id (`Store`);
* `update_all_balances` (the running-balance recompute pass);
* the `add_transaction` POST handler, the `delete_transaction` handler and the
  `import_export` POST handler (the spreadsheet import normalizer);
* the row-level parsing the import performs: Python `datetime.strptime` on the
  four date formats the code probes, `str.lower`/`str.strip` on the type and
  category cells, and Python `float` on the cleaned amount string.

SQLite `REAL` amounts and balances are modelled as exact rationals (`Rat`);
dates are stored as `String` in ISO form and ordered lexicographically,
exactly as SQLite orders its `TEXT` date column.  Python float literals such
as `inf`/`nan` are outside the model (the parser returns `none` for them).
-/

/-- Transaction kind: the `type` column, constrained by the schema CHECK to
`income` or `expense`. -/
inductive TxType
  | income
  | expense
deriving DecidableEq, Repr

/-- One row of the `transactions` table. -/
structure Record where
  id : Nat
  type : TxType
  category : String
  amount : Rat
  date : String
  description : String
  balance_after : Rat
deriving DecidableEq, Repr

/-- The persistent store: the rows plus the next AUTOINCREMENT id. -/
structure Store where
  recs : List Record
  nextId : Nat
deriving DecidableEq, Repr

/-- The signed contribution of a record to the running balance:
`+amount` for income, `-amount` for expense (the loop body of
`update_all_balances`). -/
def signed (r : Record) : Rat :=
  if r.type = TxType.income then r.amount else -r.amount

/-- Codepoint-wise lexicographic comparison of character lists.  On the
UTF-8 encoded `TEXT` date column this is exactly SQLite's memcmp ordering
(codepoint order and byte order agree for UTF-8). -/
def strLtB : List Char → List Char → Bool
  | [], [] => false
  | [], _ :: _ => true
  | _ :: _, [] => false
  | a :: as, b :: bs =>
    if a.toNat < b.toNat then true
    else if b.toNat < a.toNat then false
    else strLtB as bs

/-- The `date < date` comparison of the `ORDER BY` clause. -/
def dateLt (a b : String) : Prop :=
  strLtB a.data b.data = true

instance dateLt.instDec : ∀ a b : String, Decidable (dateLt a b) := fun a b =>
  inferInstanceAs (Decidable (strLtB a.data b.data = true))

theorem strLtB_irrefl : ∀ as : List Char, strLtB as as = false
  | [] => rfl
  | a :: as => by
    rw [strLtB, if_neg (Nat.lt_irrefl _), if_neg (Nat.lt_irrefl _)]
    exact strLtB_irrefl as

theorem strLtB_asymm : ∀ as bs : List Char,
    strLtB as bs = true → strLtB bs as = false
  | [], [] => fun h => by cases h
  | [], _ :: _ => fun _ => rfl
  | _ :: _, [] => fun h => by cases h
  | a :: as, b :: bs => fun h => by
    rw [strLtB] at h ⊢
    by_cases hab : a.toNat < b.toNat
    · rw [if_neg (Nat.lt_asymm hab), if_pos hab]
    · rw [if_neg hab] at h
      by_cases hba : b.toNat < a.toNat
      · rw [if_pos hba] at h; cases h
      · rw [if_neg hba] at h
        rw [if_neg hba, if_neg hab]
        exact strLtB_asymm as bs h

theorem strLtB_trans : ∀ as bs cs : List Char,
    strLtB as bs = true → strLtB bs cs = true → strLtB as cs = true
  | [], bs, cs => fun h1 h2 => by
    cases bs with
    | nil => cases h1
    | cons b bs2 =>
      cases cs with
      | nil => cases h2
      | cons c cs2 => rfl
  | a :: as, bs, cs => fun h1 h2 => by
    cases bs with
    | nil => cases h1
    | cons b bs2 =>
      cases cs with
      | nil => cases h2
      | cons c cs2 =>
        rw [strLtB] at h1 h2 ⊢
        by_cases hab : a.toNat < b.toNat
        · by_cases hbc : b.toNat < c.toNat
          · rw [if_pos (Nat.lt_trans hab hbc)]
          · rw [if_neg hbc] at h2
            by_cases hcb : c.toNat < b.toNat
            · rw [if_pos hcb] at h2; cases h2
            · have hbc2 : b.toNat = c.toNat :=
                Nat.le_antisymm (Nat.not_lt.mp hcb) (Nat.not_lt.mp hbc)
              rw [if_pos (hbc2 ▸ hab)]
        · rw [if_neg hab] at h1
          by_cases hba : b.toNat < a.toNat
          · rw [if_pos hba] at h1; cases h1
          · rw [if_neg hba] at h1
            have hab2 : a.toNat = b.toNat :=
              Nat.le_antisymm (Nat.not_lt.mp hba) (Nat.not_lt.mp hab)
            by_cases hbc : b.toNat < c.toNat
            · rw [if_pos (hab2 ▸ hbc)]
            · rw [if_neg hbc] at h2
              by_cases hcb : c.toNat < b.toNat
              · rw [if_pos hcb] at h2; cases h2
              · rw [if_neg hcb] at h2
                rw [if_neg (hab2 ▸ hbc), if_neg (hab2 ▸ hcb)]
                exact strLtB_trans as bs2 cs2 h1 h2

theorem strLtB_trichotomy : ∀ as bs : List Char,
    strLtB as bs = true ∨ as = bs ∨ strLtB bs as = true
  | [], [] => Or.inr (Or.inl rfl)
  | [], _ :: _ => Or.inl rfl
  | _ :: _, [] => Or.inr (Or.inr rfl)
  | a :: as, b :: bs => by
    rcases Nat.lt_trichotomy a.toNat b.toNat with h | h | h
    · exact Or.inl (by rw [strLtB, if_pos h])
    · have hab : a = b := Char.eq_of_val_eq (UInt32.ext h)
      subst hab
      rcases strLtB_trichotomy as bs with h2 | h2 | h2
      · refine Or.inl ?_
        rw [strLtB, if_neg (Nat.lt_irrefl _), if_neg (Nat.lt_irrefl _)]
        exact h2
      · exact Or.inr (Or.inl (by rw [h2]))
      · refine Or.inr (Or.inr ?_)
        rw [strLtB, if_neg (Nat.lt_irrefl _), if_neg (Nat.lt_irrefl _)]
        exact h2
    · exact Or.inr (Or.inr (by rw [strLtB, if_pos h]))

theorem dateLt_irrefl (a : String) : ¬ dateLt a a := by
  unfold dateLt
  rw [strLtB_irrefl]
  exact Bool.false_ne_true

theorem dateLt_asymm {a b : String} (h : dateLt a b) : ¬ dateLt b a := by
  unfold dateLt at h ⊢
  rw [strLtB_asymm a.data b.data h]
  exact Bool.false_ne_true

theorem dateLt_trans {a b c : String} (h1 : dateLt a b) (h2 : dateLt b c) :
    dateLt a c :=
  strLtB_trans a.data b.data c.data h1 h2

theorem dateLt_trichotomy (a b : String) : dateLt a b ∨ a = b ∨ dateLt b a := by
  rcases strLtB_trichotomy a.data b.data with h | h | h
  · exact Or.inl h
  · refine Or.inr (Or.inl ?_)
    obtain ⟨x⟩ := a
    obtain ⟨y⟩ := b
    exact congrArg String.mk h
  · exact Or.inr (Or.inr h)

/-- The `ORDER BY date ASC, id ASC` key order used by `update_all_balances`:
lexicographic on the date string (SQLite TEXT ordering), then on id. -/
def keyLe (r s : Record) : Prop :=
  dateLt r.date s.date ∨ (r.date = s.date ∧ r.id ≤ s.id)

/-- Strict version of `keyLe`. -/
def keyLt (r s : Record) : Prop :=
  dateLt r.date s.date ∨ (r.date = s.date ∧ r.id < s.id)

instance keyLe.instDec : DecidableRel keyLe := fun r s =>
  inferInstanceAs (Decidable (dateLt r.date s.date ∨ (r.date = s.date ∧ r.id ≤ s.id)))

instance keyLt.instDec : DecidableRel keyLt := fun r s =>
  inferInstanceAs (Decidable (dateLt r.date s.date ∨ (r.date = s.date ∧ r.id < s.id)))

instance keyLe.instTotal : IsTotal Record keyLe where
  total r s := by
    rcases dateLt_trichotomy r.date s.date with h | h | h
    · exact Or.inl (Or.inl h)
    · rcases Nat.le_total r.id s.id with h2 | h2
      · exact Or.inl (Or.inr ⟨h, h2⟩)
      · exact Or.inr (Or.inr ⟨h.symm, h2⟩)
    · exact Or.inr (Or.inl h)

instance keyLe.instTrans : IsTrans Record keyLe where
  trans r s t hrs hst := by
    rcases hrs with h1 | ⟨e1, i1⟩
    · rcases hst with h2 | ⟨e2, _⟩
      · exact Or.inl (dateLt_trans h1 h2)
      · exact Or.inl (e2 ▸ h1)
    · rcases hst with h2 | ⟨e2, i2⟩
      · exact Or.inl (e1 ▸ h2)
      · exact Or.inr ⟨e1.trans e2, Nat.le_trans i1 i2⟩

/-- `SELECT * FROM transactions ORDER BY date ASC, id ASC`. -/
def sortRecords (l : List Record) : List Record :=
  List.insertionSort keyLe l

/-- The accumulation loop of `update_all_balances`: walking the sorted rows it
produces, in order, the `(id, new balance)` pair each `UPDATE` statement
writes. -/
def computeBalances : Rat → List Record → List (Nat × Rat)
  | _, [] => []
  | bal, r :: rs => (r.id, bal + signed r) :: computeBalances (bal + signed r) rs

/-- Apply the computed `UPDATE transactions SET balance_after = ? WHERE id = ?`
statements to one row. -/
def applyBalances (bs : List (Nat × Rat)) (r : Record) : Record :=
  match bs.lookup r.id with
  | some b => { r with balance_after := b }
  | none => r

/-- `update_all_balances` from src/app.py: fetch all rows ordered by
`(date, id)`, walk them accumulating the running balance, and write each new
balance back to the row with that id. -/
def update_all_balances (store : List Record) : List Record :=
  store.map (applyBalances (computeBalances 0 (sortRecords store)))

/-- `SELECT balance_after FROM transactions ORDER BY id DESC LIMIT 1`:
the row with the largest id, if any. -/
def maxIdRecord : List Record → Option Record
  | [] => none
  | r :: rs =>
    match maxIdRecord rs with
    | none => some r
    | some m => if m.id < r.id then some r else some m

/-- The balance `add_transaction` starts from: the `balance_after` of the
max-id row, or 0 for an empty table. -/
def lastByIdBalance (store : List Record) : Rat :=
  match maxIdRecord store with
  | some r => r.balance_after
  | none => 0

/-- The POST branch of `add_transaction`: reads the last balance by id, adds or
subtracts the posted amount, and inserts the new row.  The insert omits the
date column, so SQLite fills in `CURRENT_DATE` (the `today` parameter).
No recompute pass runs and no validation is applied to `amount`. -/
def add_transaction (today : String) (type_ : TxType) (category : String)
    (amount : Rat) (description : String) (s : Store) : Store :=
  let current_balance := lastByIdBalance s.recs
  let new_balance :=
    if type_ = TxType.income then current_balance + amount
    else current_balance - amount
  let newRec : Record :=
    { id := s.nextId, type := type_, category := category, amount := amount,
      date := today, description := description, balance_after := new_balance }
  { recs := s.recs ++ [newRec], nextId := s.nextId + 1 }

/-- `delete_transaction`: `DELETE FROM transactions WHERE id = ?` followed by
`update_all_balances()`. -/
def delete_transaction (tid : Nat) (s : Store) : Store :=
  { recs := update_all_balances (s.recs.filter (fun r => r.id != tid)),
    nextId := s.nextId }

/-! ## Pandas cells and the row-level parsers of the import -/

/-- A spreadsheet cell as `pd.read_excel` delivers it.  `num` carries the
Python `str()` rendering of a numeric cell; `ts` is a native
`pd.Timestamp` carrying its calendar date. -/
inductive Cell
  | na
  | str (s : String)
  | num (s : String)
  | ts (y m d : Nat)
deriving DecidableEq, Repr

/-- `pd.isna` on a cell. -/
def pdIsna : Cell → Bool
  | Cell.na => true
  | _ => false

/-- Zero-pad a number to two digits (`strftime` `%m`/`%d`). -/
def pad2 (n : Nat) : String :=
  if n < 10 then "0" ++ toString n else toString n

/-- Zero-pad a number to four digits (`strftime` `%Y`). -/
def pad4 (n : Nat) : String :=
  if n < 10 then "000" ++ toString n
  else if n < 100 then "00" ++ toString n
  else if n < 1000 then "0" ++ toString n
  else toString n

/-- `strftime('%Y-%m-%d')`. -/
def formatYmd (y m d : Nat) : String :=
  pad4 y ++ "-" ++ pad2 m ++ "-" ++ pad2 d

/-- Python `str()` of a cell: `str(nan)` is `"nan"`, a string is itself, a
numeric cell renders as its repr, a Timestamp renders with a time part. -/
def cellStr : Cell → String
  | Cell.na => "nan"
  | Cell.str s => s
  | Cell.num s => s
  | Cell.ts y m d => formatYmd y m d ++ " 00:00:00"

/-- Python `str.lower()` restricted to ASCII letters and the Cyrillic
alphabet that the type tokens use. -/
def pyLowerChar (c : Char) : Char :=
  if 'A' ≤ c ∧ c ≤ 'Z' then Char.ofNat (c.toNat + 32)
  else if 'А' ≤ c ∧ c ≤ 'Я' then Char.ofNat (c.toNat + 32)
  else if c = 'Ё' then 'ё'
  else c

/-- Python `str.lower()` on a whole string. -/
def pyLower (s : String) : String :=
  String.mk (s.data.map pyLowerChar)

/-- Strip whitespace from both ends of a character list (Python `str.strip()`
and the stripping `float()` applies to its argument). -/
def stripWs (cs : List Char) : List Char :=
  ((cs.dropWhile Char.isWhitespace).reverse.dropWhile Char.isWhitespace).reverse

/-- Python `str.strip()` on a whole string. -/
def pyStrip (s : String) : String :=
  String.mk (stripWs s.data)

/-- Split a character list on a separator character. -/
def splitOnChar (sep : Char) : List Char → List (List Char)
  | [] => [[]]
  | c :: cs =>
    let r := splitOnChar sep cs
    if c = sep then [] :: r
    else
      match r with
      | [] => [[c]]
      | p :: ps => (c :: p) :: ps

/-- All characters are ASCII digits. -/
def allDigits (cs : List Char) : Bool := cs.all Char.isDigit

/-- Numeric value of a digit list. -/
def digitsToNat (cs : List Char) : Nat :=
  cs.foldl (fun n c => n * 10 + (c.toNat - 48)) 0

/-- A `%d`/`%m` field of CPython `strptime`: one or two digits whose value
lies in `[lo, hi]` (the regex alternation excludes `0`, `00` and values above
the bound). -/
def parseField2 (lo hi : Nat) (cs : List Char) : Option Nat :=
  if (cs.length == 1 || cs.length == 2) && allDigits cs then
    let v := digitsToNat cs
    if lo ≤ v ∧ v ≤ hi then some v else none
  else none

/-- A `%Y` field of CPython `strptime`: exactly four digits. -/
def parseYear4 (cs : List Char) : Option Nat :=
  if cs.length == 4 && allDigits cs then some (digitsToNat cs) else none

/-- Gregorian leap-year rule, as used by `datetime`. -/
def isLeapYear (y : Nat) : Bool :=
  (y % 4 == 0 && y % 100 != 0) || y % 400 == 0

/-- Days in a month, as validated by the `datetime` constructor. -/
def daysInMonth (y m : Nat) : Nat :=
  if m = 2 then (if isLeapYear y then 29 else 28)
  else if m = 4 ∨ m = 6 ∨ m = 9 ∨ m = 11 then 30
  else 31

/-- Whether the day/month/year fields come in `DD sep MM sep YYYY` or
`YYYY sep MM sep DD` order. -/
inductive DateOrder
  | dmy
  | ymd
deriving DecidableEq, Repr

/-- `datetime.strptime` on one of the four probed formats: the string must be
exactly three fields joined by the separator, the fields must match the
`%d`/`%m`/`%Y` patterns, and the resulting date must be a valid calendar date
(`datetime` raises on day 31 of a 30-day month, on February 29 of a non-leap
year and on year 0). -/
def strptimeDate (sep : Char) (ord : DateOrder) (cs : List Char) :
    Option (Nat × Nat × Nat) :=
  match splitOnChar sep cs with
  | [a, b, c] =>
    match ord with
    | DateOrder.dmy => do
      let d ← parseField2 1 31 a
      let m ← parseField2 1 12 b
      let y ← parseYear4 c
      if 1 ≤ y ∧ d ≤ daysInMonth y m then some (y, m, d) else none
    | DateOrder.ymd => do
      let y ← parseYear4 a
      let m ← parseField2 1 12 b
      let d ← parseField2 1 31 c
      if 1 ≤ y ∧ d ≤ daysInMonth y m then some (y, m, d) else none
  | _ => none

/-- The format list the import probes, in source order:
`%d.%m.%Y`, `%Y-%m-%d`, `%d/%m/%Y`, `%d-%m-%Y`. -/
def dateFormats : List (Char × DateOrder) :=
  [('.', DateOrder.dmy), ('-', DateOrder.ymd), ('/', DateOrder.dmy),
   ('-', DateOrder.dmy)]

/-- Probe the formats in order; the first success wins (the `for`/`break`
loop of the import). -/
def tryFormats : List (Char × DateOrder) → List Char → Option String
  | [], _ => none
  | (sep, ord) :: rest, cs =>
    match strptimeDate sep ord cs with
    | some (y, m, d) => some (formatYmd y m d)
    | none => tryFormats rest cs

/-- Date parsing of a string cell: `str(date_value).strip()` followed by the
format probe loop, rendering a success as `%Y-%m-%d`. -/
def parseDateString (s : String) : Option String :=
  tryFormats dateFormats (stripWs s.data)

/-- Date handling of the import row: a string cell goes through the format
probes, a native Timestamp is accepted directly, any other value is a type
error.  The error payloads are the two message texts of the source. -/
def parseDateCell : Cell → Except String String
  | Cell.str s =>
    match parseDateString s with
    | some d => Except.ok d
    | none => Except.error "Неверный формат даты"
  | Cell.ts y m d => Except.ok (formatYmd y m d)
  | _ => Except.error "Неверный тип даты"

/-- Type parsing: `str(cell).strip().lower()` matched against the two
bilingual token sets. -/
def parseTypeCell (c : Cell) : Option TxType :=
  let t := pyLower (pyStrip (cellStr c))
  if t = "доход" ∨ t = "income" ∨ t = "д" then some TxType.income
  else if t = "расход" ∨ t = "expense" ∨ t = "р" then some TxType.expense
  else none

/-! ## Amount parsing: the cleanup pipeline and a model of Python float() -/

/-- The cleanup the import applies to `str(row['Сумма'])`:
`replace(',', '.')` then `replace('-', '')` then `replace(' ', '')` —
each a global single-character substitution. -/
def cleanAmountChars (cs : List Char) : List Char :=
  ((cs.map (fun c => if c = ',' then '.' else c)).filter
      (fun c => c != '-')).filter (fun c => c != ' ')

/-- The integer-and-fraction part of a float literal: digits with at most one
dot and at least one digit.  Returns the digit string's value and the number
of fractional digits. -/
def parseDecMantissa (cs : List Char) : Option (Nat × Nat) :=
  match splitOnChar '.' cs with
  | [ip] =>
    if allDigits ip && ip.length != 0 then some (digitsToNat ip, 0) else none
  | [ip, fp] =>
    if allDigits ip && allDigits fp && (ip.length != 0 || fp.length != 0) then
      some (digitsToNat (ip ++ fp), fp.length)
    else none
  | _ => none

/-- The exponent part of a float literal: an optional sign and a nonempty
digit string. -/
def parseExpPart (cs : List Char) : Option Int :=
  match cs with
  | [] => none
  | c :: rest =>
    let p : Int × List Char :=
      if c = '+' then (1, rest) else if c = '-' then (-1, rest) else (1, cs)
    if allDigits p.2 && p.2.length != 0 then
      some (p.1 * (digitsToNat p.2 : Int))
    else none

/-- Split a literal at the first `e`/`E`, keeping what follows it. -/
def splitAtExp (cs : List Char) : List Char × Option (List Char) :=
  match cs.span (fun c => !(c == 'e' || c == 'E')) with
  | (m, []) => (m, none)
  | (m, _ :: rest) => (m, some rest)

/-- The optional leading sign of a float literal. -/
def splitSign (cs : List Char) : Rat × List Char :=
  match cs with
  | [] => (1, [])
  | c :: rest =>
    if c = '+' then (1, rest) else if c = '-' then (-1, rest) else (1, cs)

/-- The unsigned part of a float literal: a decimal mantissa with an optional
exponent. -/
def parseMagnitude (cs : List Char) : Option Rat :=
  let me := splitAtExp cs
  match parseDecMantissa me.1 with
  | none => none
  | some nf =>
    let mant : Rat := (nf.1 : Rat) / (10 : Rat) ^ nf.2
    match me.2 with
    | none => some mant
    | some ec =>
      match parseExpPart ec with
      | none => none
      | some e => some (mant * (10 : Rat) ^ e)

/-- A model of Python `float()` on finite decimal literals: optional sign,
decimal mantissa, optional exponent.  `inf`/`nan`/underscored literals are
outside the model and yield `none`. -/
def parsePyFloatChars (cs0 : List Char) : Option Rat :=
  match stripWs cs0 with
  | [] => none
  | c :: rest =>
    let p := splitSign (c :: rest)
    (parseMagnitude p.2).map (fun m => p.1 * m)

/-- Amount parsing of the import row: clean the cell's string rendering and
feed it to `float()`. -/
def parseAmountCell (c : Cell) : Option Rat :=
  parsePyFloatChars (cleanAmountChars (cellStr c).data)

/-! ## The import loop -/

/-- One imported row: the cells keyed by column header. -/
def Row : Type := List (String × Cell)

/-- Cell of a row under a header, with a default for a missing binding. -/
def getCellD (row : Row) (h : String) (d : Cell) : Cell :=
  match List.find? (fun p => p.1 == h) row with
  | some p => p.2
  | none => d

/-- Cell of a row under a header (required columns; a missing binding reads
as NaN, as an absent value does in pandas). -/
def getCell (row : Row) (h : String) : Cell :=
  getCellD row h Cell.na

/-- `row.get('Описание', '')` followed by the NaN check and `strip()`. -/
def descrOf (row : Row) : String :=
  let c := getCellD row "Описание" (Cell.str "")
  if pdIsna c then "" else pyStrip (cellStr c)

/-- Row error message: `"Строка {index + 2}: {msg}"`. -/
def rowMsg (idx : Nat) (msg : String) : String :=
  "Строка " ++ toString (idx + 2) ++ ": " ++ msg

/-- Result of validating one imported row. -/
inductive RowResult
  | skip
  | err (msg : String)
  | ok (date : String) (type_ : TxType) (amount : Rat)
      (category : String) (description : String)
deriving DecidableEq, Repr

/-- The per-row body of the import loop: skip on empty date/amount, then
parse date, type and amount in that order (each failure collects an error and
moves on), then coerce category and description. -/
def processRow (idx : Nat) (row : Row) : RowResult :=
  if pdIsna (getCell row "Дата") || pdIsna (getCell row "Сумма") then
    RowResult.skip
  else
    match parseDateCell (getCell row "Дата") with
    | Except.error m => RowResult.err (rowMsg idx m)
    | Except.ok date_str =>
      match parseTypeCell (getCell row "Тип") with
      | none => RowResult.err (rowMsg idx "Неверный тип операции")
      | some type_db =>
        match parseAmountCell (getCell row "Сумма") with
        | none => RowResult.err (rowMsg idx "Неверный формат суммы")
        | some amount =>
          RowResult.ok date_str type_db amount
            (pyStrip (cellStr (getCell row "Категория"))) (descrOf row)

/-- The mutable state of the import loop: the table rows so far, the next
AUTOINCREMENT id, `added_count` and the collected `errors`. -/
structure ImpState where
  recs : List Record
  nextId : Nat
  count : Nat
  errors : List String
deriving DecidableEq, Repr

/-- One iteration of the import loop: a valid row is inserted with a
placeholder `balance_after` of 0; an invalid row only appends its error. -/
def importStep (idx : Nat) (row : Row) (st : ImpState) : ImpState :=
  match processRow idx row with
  | RowResult.skip => st
  | RowResult.err m => { st with errors := st.errors ++ [m] }
  | RowResult.ok d ty a c desc =>
    { st with
      recs := st.recs ++ [{ id := st.nextId, type := ty, category := c,
                            amount := a, date := d, description := desc,
                            balance_after := 0 }],
      nextId := st.nextId + 1,
      count := st.count + 1 }

/-- The import loop over all rows, `idx` tracking the pandas row index. -/
def importRows (idx : Nat) (rows : List Row) (st : ImpState) : ImpState :=
  match rows with
  | [] => st
  | row :: rest => importRows (idx + 1) rest (importStep idx row st)

/-- An imported table: the column headers and the rows. -/
structure Table where
  headers : List String
  rows : List Row

/-- The required columns of the import. -/
def requiredColumns : List String :=
  ["Дата", "Тип", "Категория", "Сумма"]

/-- The schema check `all(col in df.columns for col in required_columns)`. -/
def schemaOk (t : Table) : Bool :=
  requiredColumns.all (fun c => t.headers.contains c)

/-- The schema error message of the source. -/
def schemaErrorText : String :=
  "Файл должен содержать колонки: Дата, Тип, Категория, Сумма"

/-- Outcome of a POST to `import_export`: either the schema error page or the
success page carrying `added_count` and the row errors. -/
inductive ImportOutcome
  | schemaError (msg : String)
  | done (added : Nat) (errors : List String)
deriving DecidableEq, Repr

/-- The POST branch of `import_export`: on a missing required column it
returns the error page before touching the store; otherwise it runs the row
loop, commits, and calls `update_all_balances` once after the whole batch. -/
def import_export (t : Table) (s : Store) : ImportOutcome × Store :=
  if schemaOk t then
    let st := importRows 0 t.rows ⟨s.recs, s.nextId, 0, []⟩
    (ImportOutcome.done st.count st.errors,
      ⟨update_all_balances st.recs, st.nextId⟩)
  else
    (ImportOutcome.schemaError schemaErrorText, s)

/-! ## The balance invariant -/

/-- Distinctness of ids (INTEGER PRIMARY KEY AUTOINCREMENT). -/
def idsNodup (store : List Record) : Prop :=
  (store.map Record.id).Nodup

/-- The signed sum over all records whose `(date, id)` key is at most the key
of `r` — the value `balance_after` is specified to hold. -/
def sumLe (store : List Record) (r : Record) : Rat :=
  ((store.filter (fun s => decide (keyLe s r))).map signed).sum

/-- The data-model invariant: every record's `balance_after` equals the
prefix sum of signed amounts in `(date ASC, id ASC)` order. -/
def balancesConsistent (store : List Record) : Prop :=
  ∀ r ∈ store, r.balance_after = sumLe store r

/-- The balance stored on the (unique) row with a given id. -/
def balanceOfId (store : List Record) (i : Nat) : Option Rat :=
  (store.find? (fun x => x.id == i)).map (fun x => x.balance_after)

/-! ## Basic facts about the key order and `applyBalances` -/

theorem keyLe_refl (r : Record) : keyLe r r :=
  Or.inr ⟨rfl, Nat.le_refl _⟩

theorem keyLe_antisymm_id {r s : Record} (h1 : keyLe r s) (h2 : keyLe s r) :
    r.id = s.id := by
  rcases h1 with h1 | ⟨e1, i1⟩
  · rcases h2 with h2 | ⟨e2, _⟩
    · exact absurd h1 (dateLt_asymm h2)
    · exact absurd h1 (by rw [e2]; exact dateLt_irrefl _)
  · rcases h2 with h2 | ⟨_, i2⟩
    · exact absurd h2 (by rw [e1]; exact dateLt_irrefl _)
    · exact Nat.le_antisymm i1 i2

theorem keyLe_of_keyLt {r s : Record} (h : keyLt r s) : keyLe r s := by
  rcases h with h | ⟨e, i⟩
  · exact Or.inl h
  · exact Or.inr ⟨e, Nat.le_of_lt i⟩

theorem not_keyLe_of_keyLt {r s : Record} (h : keyLt r s) : ¬ keyLe s r := by
  intro h2
  rcases h with h | ⟨e, i⟩
  · rcases h2 with h2 | ⟨e2, _⟩
    · exact dateLt_asymm h h2
    · exact absurd h (by rw [e2]; exact dateLt_irrefl _)
  · rcases h2 with h2 | ⟨_, i2⟩
    · exact absurd h2 (by rw [e]; exact dateLt_irrefl _)
    · exact Nat.lt_irrefl _ (Nat.lt_of_lt_of_le i i2)

@[simp] theorem applyBalances_id (bs : List (Nat × Rat)) (r : Record) :
    (applyBalances bs r).id = r.id := by
  unfold applyBalances; split <;> rfl

@[simp] theorem applyBalances_date (bs : List (Nat × Rat)) (r : Record) :
    (applyBalances bs r).date = r.date := by
  unfold applyBalances; split <;> rfl

@[simp] theorem applyBalances_type (bs : List (Nat × Rat)) (r : Record) :
    (applyBalances bs r).type = r.type := by
  unfold applyBalances; split <;> rfl

@[simp] theorem applyBalances_amount (bs : List (Nat × Rat)) (r : Record) :
    (applyBalances bs r).amount = r.amount := by
  unfold applyBalances; split <;> rfl

@[simp] theorem applyBalances_category (bs : List (Nat × Rat)) (r : Record) :
    (applyBalances bs r).category = r.category := by
  unfold applyBalances; split <;> rfl

@[simp] theorem applyBalances_descr (bs : List (Nat × Rat)) (r : Record) :
    (applyBalances bs r).description = r.description := by
  unfold applyBalances; split <;> rfl

@[simp] theorem signed_applyBalances (bs : List (Nat × Rat)) (r : Record) :
    signed (applyBalances bs r) = signed r := by
  unfold signed; rw [applyBalances_type, applyBalances_amount]

theorem keyLe_applyBalances (bs : List (Nat × Rat)) (r s : Record) :
    keyLe (applyBalances bs r) (applyBalances bs s) ↔ keyLe r s := by
  unfold keyLe; rw [applyBalances_date, applyBalances_date,
    applyBalances_id, applyBalances_id]

/-! ## Facts about the sorted fetch -/

theorem sortRecords_perm (l : List Record) : List.Perm (sortRecords l) l :=
  List.perm_insertionSort keyLe l

theorem sortRecords_sorted (l : List Record) : List.Sorted keyLe (sortRecords l) :=
  List.sorted_insertionSort keyLe l

theorem idsNodup_of_perm {l1 l2 : List Record} (h : List.Perm l1 l2)
    (hn : idsNodup l1) : idsNodup l2 :=
  (h.map Record.id).nodup_iff.mp hn

theorem sumLe_of_perm {l1 l2 : List Record} (h : List.Perm l1 l2) (r : Record) :
    sumLe l1 r = sumLe l2 r :=
  List.Perm.sum_eq (List.Perm.map signed (List.Perm.filter _ h))

theorem sumLe_cons (x : Record) (xs : List Record) (t : Record) :
    sumLe (x :: xs) t = (if keyLe x t then signed x else 0) + sumLe xs t := by
  unfold sumLe
  by_cases h : keyLe x t
  · rw [List.filter_cons_of_pos (by simpa using h), List.map_cons, List.sum_cons,
      if_pos h]
  · rw [List.filter_cons_of_neg (by simpa using h), if_neg h, zero_add]

/-! ## The recompute pass establishes the invariant -/

theorem lookup_computeBalances (l : List Record) (bal : Rat) (r : Record)
    (hs : List.Sorted keyLe l) (hn : idsNodup l) (hr : r ∈ l) :
    (computeBalances bal l).lookup r.id = some (bal + sumLe l r) := by
  induction l generalizing bal with
  | nil => cases hr
  | cons x xs ih =>
    rw [List.sorted_cons] at hs
    obtain ⟨hx, hxs⟩ := hs
    rw [idsNodup, List.map_cons, List.nodup_cons] at hn
    obtain ⟨hxid, hxsnd⟩ := hn
    rcases List.mem_cons.mp hr with rfl | hrx
    · rw [computeBalances, List.lookup, beq_self_eq_true]
      have htail : xs.filter (fun s => decide (keyLe s r)) = [] := by
        refine List.filter_eq_nil_iff.mpr (fun s hsmem hdec => ?_)
        have hle : keyLe s r := of_decide_eq_true hdec
        exact hxid (List.mem_map.mpr ⟨s, hsmem,
          keyLe_antisymm_id hle (hx s hsmem)⟩)
      rw [sumLe_cons, if_pos (keyLe_refl r)]
      unfold sumLe
      rw [htail, List.map_nil, List.sum_nil, add_zero]
    · have hne : (r.id == x.id) = false := by
        refine beq_eq_false_iff_ne.mpr (fun he => ?_)
        exact hxid (List.mem_map.mpr ⟨r, hrx, he⟩)
      rw [computeBalances, List.lookup, hne, ih (bal + signed x) hxs hxsnd hrx]
      rw [sumLe_cons, if_pos (hx r hrx), add_assoc]

theorem applyBalances_balance (l : List Record) (r : Record)
    (hn : idsNodup l) (hr : r ∈ l) :
    (applyBalances (computeBalances 0 (sortRecords l)) r).balance_after =
      sumLe l r := by
  have hperm := sortRecords_perm l
  have hmem : r ∈ sortRecords l := hperm.mem_iff.mpr hr
  have hnod : idsNodup (sortRecords l) := idsNodup_of_perm hperm.symm hn
  have hlk := lookup_computeBalances (sortRecords l) 0 r (sortRecords_sorted l)
    hnod hmem
  unfold applyBalances
  rw [hlk, zero_add, sumLe_of_perm hperm]

theorem filter_map_comm (f : Record → Record) (p : Record → Bool)
    (l : List Record) :
    (l.map f).filter p = (l.filter (fun a => p (f a))).map f := by
  induction l with
  | nil => rfl
  | cons x xs ih =>
    simp only [List.map_cons, List.filter_cons, ih]
    by_cases h : p (f x) = true
    · rw [if_pos h, if_pos h, List.map_cons]
    · rw [if_neg h, if_neg h]

theorem sumLe_map_applyBalances (bs : List (Nat × Rat)) (l : List Record)
    (r : Record) :
    sumLe (l.map (applyBalances bs)) (applyBalances bs r) = sumLe l r := by
  unfold sumLe
  rw [filter_map_comm]
  have hp : (fun a => decide (keyLe (applyBalances bs a) (applyBalances bs r)))
      = (fun a => decide (keyLe a r)) :=
    funext fun a => decide_eq_decide.mpr (keyLe_applyBalances bs a r)
  rw [hp, List.map_map]
  have hsig : (signed ∘ applyBalances bs) = signed :=
    funext fun a => signed_applyBalances bs a
  rw [hsig]

/-- After `update_all_balances`, every row's `balance_after` is the signed
prefix sum over the store in `(date, id)` order. -/
theorem balancesConsistent_update (store : List Record) (hn : idsNodup store) :
    balancesConsistent (update_all_balances store) := by
  intro r2 hr2
  rw [update_all_balances] at hr2
  obtain ⟨r, hr, rfl⟩ := List.mem_map.mp hr2
  rw [applyBalances_balance store r hn hr, update_all_balances,
    sumLe_map_applyBalances]

/-! ## Idempotence machinery -/

theorem orderedInsert_map_applyBalances (bs : List (Nat × Rat)) (x : Record)
    (l : List Record) :
    List.orderedInsert keyLe (applyBalances bs x) (l.map (applyBalances bs)) =
      (List.orderedInsert keyLe x l).map (applyBalances bs) := by
  induction l with
  | nil => rfl
  | cons y ys ih =>
    simp only [List.map_cons, List.orderedInsert]
    by_cases h : keyLe x y
    · rw [if_pos ((keyLe_applyBalances bs x y).mpr h), if_pos h, List.map_cons,
        List.map_cons]
    · rw [if_neg (fun hc => h ((keyLe_applyBalances bs x y).mp hc)), if_neg h,
        List.map_cons, ih]

theorem sortRecords_map_applyBalances (bs : List (Nat × Rat)) (l : List Record) :
    sortRecords (l.map (applyBalances bs)) = (sortRecords l).map (applyBalances bs) := by
  induction l with
  | nil => rfl
  | cons x xs ih =>
    unfold sortRecords at ih ⊢
    rw [List.map_cons, List.insertionSort, List.insertionSort, ih,
      orderedInsert_map_applyBalances]

theorem computeBalances_map_applyBalances (bs : List (Nat × Rat)) (bal : Rat)
    (l : List Record) :
    computeBalances bal (l.map (applyBalances bs)) = computeBalances bal l := by
  induction l generalizing bal with
  | nil => rfl
  | cons x xs ih =>
    rw [List.map_cons, computeBalances, computeBalances, signed_applyBalances,
      applyBalances_id, ih]

theorem applyBalances_some (bs : List (Nat × Rat)) (r : Record) (b : Rat)
    (h : bs.lookup r.id = some b) :
    applyBalances bs r = { r with balance_after := b } := by
  unfold applyBalances; rw [h]

theorem applyBalances_none (bs : List (Nat × Rat)) (r : Record)
    (h : bs.lookup r.id = none) :
    applyBalances bs r = r := by
  unfold applyBalances; rw [h]

theorem applyBalances_twice (bs : List (Nat × Rat)) (r : Record) :
    applyBalances bs (applyBalances bs r) = applyBalances bs r := by
  cases h : bs.lookup r.id with
  | none => rw [applyBalances_none bs r h, applyBalances_none bs r h]
  | some b =>
    rw [applyBalances_some bs r b h,
      applyBalances_some bs { r with balance_after := b } b h]

/-! ## Locating a row by id after recompute -/

theorem find?_id_of_nodup (l : List Record) (r : Record) (hn : idsNodup l)
    (hr : r ∈ l) :
    l.find? (fun x => x.id == r.id) = some r := by
  induction l with
  | nil => cases hr
  | cons x xs ih =>
    rw [idsNodup, List.map_cons, List.nodup_cons] at hn
    obtain ⟨hxid, hxsnd⟩ := hn
    rcases List.mem_cons.mp hr with rfl | hrx
    · exact List.find?_cons_of_pos _ (beq_self_eq_true r.id)
    · have hne : (x.id == r.id) = false := by
        refine beq_eq_false_iff_ne.mpr (fun he => ?_)
        exact hxid (List.mem_map.mpr ⟨r, hrx, he.symm⟩)
      rw [List.find?_cons_of_neg _ (by rw [hne]; exact Bool.false_ne_true),
        ih hxsnd hrx]

theorem balanceOfId_update (l : List Record) (t : Record) (hn : idsNodup l)
    (ht : t ∈ l) :
    balanceOfId (update_all_balances l) t.id = some (sumLe l t) := by
  unfold balanceOfId update_all_balances
  rw [List.find?_map]
  have hp : ((fun x : Record => x.id == t.id) ∘
      applyBalances (computeBalances 0 (sortRecords l)))
      = (fun x : Record => x.id == t.id) :=
    funext fun x => by
      rw [Function.comp_apply, applyBalances_id]
  rw [hp, find?_id_of_nodup l t hn ht]
  show some ((applyBalances (computeBalances 0 (sortRecords l)) t).balance_after)
      = some (sumLe l t)
  rw [applyBalances_balance l t hn ht]

/-! ## Effect of removing one row on the prefix sums -/

theorem sumLe_filter_ne (l : List Record) (r : Record) (hn : idsNodup l)
    (hr : r ∈ l) (t : Record) :
    sumLe (l.filter (fun x => x.id != r.id)) t =
      sumLe l t - (if keyLe r t then signed r else 0) := by
  induction l with
  | nil => cases hr
  | cons x xs ih =>
    rw [idsNodup, List.map_cons, List.nodup_cons] at hn
    obtain ⟨hxid, hxsnd⟩ := hn
    rcases List.mem_cons.mp hr with rfl | hrx
    · have htail : xs.filter (fun y => y.id != r.id) = xs := by
        refine List.filter_eq_self.mpr (fun y hy => ?_)
        refine bne_iff_ne.mpr (fun he => ?_)
        exact hxid (List.mem_map.mpr ⟨y, hy, he⟩)
      have hfil : (r :: xs).filter (fun y => y.id != r.id) = xs := by
        rw [List.filter_cons]
        simp [htail]
      rw [hfil, sumLe_cons]
      ring
    · have hne : r.id ≠ x.id := fun he =>
        hxid (List.mem_map.mpr ⟨r, hrx, he⟩)
      have hhead : (x.id != r.id) = true := bne_iff_ne.mpr (fun he => hne he.symm)
      have hfil : (x :: xs).filter (fun y => y.id != r.id)
          = x :: xs.filter (fun y => y.id != r.id) := by
        rw [List.filter_cons]
        simp [hhead]
      rw [hfil, sumLe_cons, sumLe_cons, ih hxsnd hrx]
      ring

theorem idsNodup_filter (l : List Record) (p : Record → Bool)
    (hn : idsNodup l) : idsNodup (l.filter p) := by
  unfold idsNodup at hn ⊢
  exact List.Nodup.sublist (List.Sublist.map Record.id (List.filter_sublist l)) hn

/-! ## The import loop: id freshness and the shape of the inserted batch -/

theorem importStep_inv (idx : Nat) (row : Row) (st : ImpState)
    (h1 : ∀ r ∈ st.recs, r.id < st.nextId) (h2 : idsNodup st.recs) :
    (∀ r ∈ (importStep idx row st).recs, r.id < (importStep idx row st).nextId)
      ∧ idsNodup (importStep idx row st).recs := by
  unfold importStep
  cases processRow idx row with
  | skip => exact ⟨h1, h2⟩
  | err m => exact ⟨h1, h2⟩
  | ok d ty a c desc =>
    constructor
    · intro r hrr
      rcases List.mem_append.mp hrr with hmem | hmem
      · exact Nat.lt_succ_of_lt (h1 r hmem)
      · rw [List.mem_singleton] at hmem
        rw [hmem]
        exact Nat.lt_succ_self _
    · unfold idsNodup
      rw [List.map_append]
      refine List.Nodup.append h2 (List.nodup_singleton _) ?_
      intro i hi hi2
      rw [List.map_singleton, List.mem_singleton] at hi2
      obtain ⟨r, hrmem, hrid⟩ := List.mem_map.mp hi
      have := h1 r hrmem
      rw [hrid, hi2] at this
      exact Nat.lt_irrefl _ this

theorem importRows_inv (rows : List Row) (idx : Nat) (st : ImpState)
    (h1 : ∀ r ∈ st.recs, r.id < st.nextId) (h2 : idsNodup st.recs) :
    (∀ r ∈ (importRows idx rows st).recs,
        r.id < (importRows idx rows st).nextId)
      ∧ idsNodup (importRows idx rows st).recs := by
  induction rows generalizing idx st with
  | nil => exact ⟨h1, h2⟩
  | cons row rest ih =>
    rw [importRows]
    obtain ⟨g1, g2⟩ := importStep_inv idx row st h1 h2
    exact ih (idx + 1) (importStep idx row st) g1 g2

/-- The record a valid row inserts: the parsed fields with the next id and a
placeholder balance of 0. -/
def insertedRecord (nid : Nat) (d : String) (ty : TxType) (a : Rat)
    (c : String) (desc : String) : Record :=
  { id := nid, type := ty, category := c, amount := a, date := d,
    description := desc, balance_after := 0 }

/-- A skipped row leaves the loop state untouched. -/
theorem importStep_skip (idx : Nat) (row : Row) (st : ImpState)
    (h : processRow idx row = RowResult.skip) :
    importStep idx row st = st := by
  unfold importStep
  rw [h]

/-- A row that fails validation only collects its error message: the table
rows, the next id and the count are untouched and the loop moves on. -/
theorem importStep_err (idx : Nat) (row : Row) (st : ImpState) (m : String)
    (h : processRow idx row = RowResult.err m) :
    importStep idx row st =
      { st with errors := st.errors ++ [m] } := by
  unfold importStep
  rw [h]

/-- A valid row appends its record, with `balance_after` 0, and bumps the id
and the count. -/
theorem importStep_ok (idx : Nat) (row : Row) (st : ImpState) (d : String)
    (ty : TxType) (a : Rat) (c : String) (desc : String)
    (h : processRow idx row = RowResult.ok d ty a c desc) :
    importStep idx row st =
      { st with recs := st.recs ++ [insertedRecord st.nextId d ty a c desc],
                nextId := st.nextId + 1, count := st.count + 1 } := by
  unfold importStep
  rw [h]
  rfl

theorem importRows_decomp (rows : List Row) (idx : Nat) (st : ImpState) :
    ∃ news : List Record, (importRows idx rows st).recs = st.recs ++ news ∧
      ∀ r ∈ news, r.balance_after = 0 := by
  induction rows generalizing idx st with
  | nil => exact ⟨[], by rw [importRows, List.append_nil], fun r hmem => by cases hmem⟩
  | cons row rest ih =>
    rw [importRows]
    obtain ⟨news, he, hb⟩ := ih (idx + 1) (importStep idx row st)
    rw [he]
    cases hp : processRow idx row with
    | skip =>
      rw [importStep_skip idx row st hp]
      exact ⟨news, rfl, hb⟩
    | err m =>
      rw [importStep_err idx row st m hp]
      exact ⟨news, rfl, hb⟩
    | ok d ty a c desc =>
      rw [importStep_ok idx row st d ty a c desc hp]
      refine ⟨insertedRecord st.nextId d ty a c desc :: news, ?_, ?_⟩
      · rw [List.append_assoc, List.singleton_append]
      · intro r hmem
        rcases List.mem_cons.mp hmem with rfl | hmem
        · rfl
        · exact hb r hmem

/-! ## Decidability of the invariant and sign facts about the amount parser -/

instance balancesConsistent.instDec (store : List Record) :
    Decidable (balancesConsistent store) :=
  inferInstanceAs (Decidable (∀ r ∈ store, r.balance_after = sumLe store r))

instance idsNodup.instDec (store : List Record) : Decidable (idsNodup store) :=
  inferInstanceAs (Decidable (store.map Record.id).Nodup)

theorem stripWs_subset (cs : List Char) : ∀ c ∈ stripWs cs, c ∈ cs := by
  intro c hc
  unfold stripWs at hc
  rw [List.mem_reverse] at hc
  have h2 : c ∈ (cs.dropWhile Char.isWhitespace).reverse :=
    (List.dropWhile_sublist _).subset hc
  rw [List.mem_reverse] at h2
  exact (List.dropWhile_sublist _).subset h2

theorem splitSign_fst_nonneg (cs : List Char) (hm : ∀ c ∈ cs, c ≠ '-') :
    0 ≤ (splitSign cs).1 := by
  cases cs with
  | nil => norm_num [splitSign]
  | cons c rest =>
    simp only [splitSign]
    by_cases hp : c = '+'
    · rw [if_pos hp]; norm_num
    · rw [if_neg hp, if_neg (hm c (List.mem_cons_self c rest))]
      norm_num

theorem parseMagnitude_nonneg (cs : List Char) (m : Rat)
    (h : parseMagnitude cs = some m) : 0 ≤ m := by
  simp only [parseMagnitude] at h
  cases hdm : parseDecMantissa (splitAtExp cs).1 with
  | none => rw [hdm] at h; cases h
  | some nf =>
    rw [hdm] at h
    simp only [] at h
    have hmant : (0 : Rat) ≤ (nf.1 : Rat) / (10 : Rat) ^ nf.2 :=
      div_nonneg (Nat.cast_nonneg _) (pow_nonneg (by norm_num) _)
    cases hex : (splitAtExp cs).2 with
    | none =>
      rw [hex] at h
      simp only [] at h
      cases h
      exact hmant
    | some ec =>
      rw [hex] at h
      simp only [] at h
      cases hep : parseExpPart ec with
      | none =>
        rw [hep] at h
        cases h
      | some e =>
        rw [hep] at h
        simp only [] at h
        cases h
        exact mul_nonneg hmant (zpow_nonneg (by norm_num) e)

theorem parsePyFloatChars_nonneg (cs : List Char) (hm : ∀ c ∈ cs, c ≠ '-')
    (a : Rat) (h : parsePyFloatChars cs = some a) : 0 ≤ a := by
  simp only [parsePyFloatChars] at h
  cases hcs : stripWs cs with
  | nil => rw [hcs] at h; cases h
  | cons c rest =>
    rw [hcs] at h
    simp only [] at h
    have hm2 : ∀ x ∈ c :: rest, x ≠ '-' := fun x hx =>
      hm x (stripWs_subset cs x (hcs ▸ hx))
    cases hmag : parseMagnitude (splitSign (c :: rest)).2 with
    | none =>
      rw [hmag] at h
      cases h
    | some mv =>
      rw [hmag] at h
      cases h
      exact mul_nonneg (splitSign_fst_nonneg _ hm2) (parseMagnitude_nonneg _ mv hmag)

theorem cleanAmountChars_no_minus (cs : List Char) :
    ∀ c ∈ cleanAmountChars cs, c ≠ '-' ∧ c ≠ ' ' := by
  intro c hc
  unfold cleanAmountChars at hc
  rw [List.mem_filter] at hc
  obtain ⟨hc1, hsp⟩ := hc
  rw [List.mem_filter] at hc1
  obtain ⟨_, hmn⟩ := hc1
  exact ⟨bne_iff_ne.mp hmn, bne_iff_ne.mp hsp⟩

/-- Unfolding of `processRow` once both the date and the amount cells are
known to be strings (so the empty-row skip does not fire). -/
theorem processRow_str (idx : Nat) (row : Row) (ds as0 : String)
    (h1 : getCell row "Дата" = Cell.str ds)
    (h4 : getCell row "Сумма" = Cell.str as0) :
    processRow idx row =
      (match parseDateCell (Cell.str ds) with
       | Except.error m => RowResult.err (rowMsg idx m)
       | Except.ok date_str =>
         match parseTypeCell (getCell row "Тип") with
         | none => RowResult.err (rowMsg idx "Неверный тип операции")
         | some type_db =>
           match parseAmountCell (Cell.str as0) with
           | none => RowResult.err (rowMsg idx "Неверный формат суммы")
           | some amount =>
             RowResult.ok date_str type_db amount
               (pyStrip (cellStr (getCell row "Категория"))) (descrOf row)) := by
  unfold processRow
  rw [h1, h4]
  rfl

/-! ## Concrete fixtures used by counterexamples and witnesses -/

/-- The empty store of a fresh database. -/
def emptyStore : Store := { recs := [], nextId := 1 }

/-- A one-row import whose record is dated in the future. -/
def futureTable : Table :=
  { headers := ["Дата", "Тип", "Категория", "Сумма"],
    rows := [[("Дата", Cell.str "01.01.2030"), ("Тип", Cell.str "доход"),
              ("Категория", Cell.str "x"), ("Сумма", Cell.str "10")]] }

/-- A consistent one-record store. -/
def witnessStore : Store :=
  { recs := [{ id := 1, type := TxType.income, category := "a", amount := 3,
               date := "2025-01-01", description := "", balance_after := 3 }],
    nextId := 2 }

/-- A one-row valid import table. -/
def witnessTable : Table :=
  { headers := ["Дата", "Тип", "Категория", "Сумма"],
    rows := [[("Дата", Cell.str "02.01.2025"), ("Тип", Cell.str "расход"),
              ("Категория", Cell.str "y"), ("Сумма", Cell.str "1")]] }

/-- A table lacking the required Сумма column. -/
def noAmountTable : Table :=
  { headers := ["Дата", "Тип", "Категория"], rows := [] }

/-! ## Claim theorems -/

/-- **C2.** The recompute pass is idempotent: running `update_all_balances`
twice in a row yields exactly the same store — hence the same
`balance_after` for every record — as running it once. -/
theorem update_all_balances_idempotent (store : List Record) :
    update_all_balances (update_all_balances store) = update_all_balances store := by
  unfold update_all_balances
  rw [sortRecords_map_applyBalances, computeBalances_map_applyBalances,
    List.map_map]
  have h : (applyBalances (computeBalances 0 (sortRecords store)) ∘
      applyBalances (computeBalances 0 (sortRecords store)))
      = applyBalances (computeBalances 0 (sortRecords store)) :=
    funext fun r => applyBalances_twice _ r
  rw [h]

/-- The non-balance fields of a record. -/
def coreFields (r : Record) : Nat × TxType × String × Rat × String × String :=
  (r.id, r.type, r.category, r.amount, r.date, r.description)

/-- **C10.** The recompute pass modifies only `balance_after`: it preserves
the list of ids and every other field of every record. -/
theorem update_all_balances_frame (store : List Record) :
    (update_all_balances store).map Record.id = store.map Record.id ∧
      (update_all_balances store).map coreFields = store.map coreFields := by
  constructor
  · unfold update_all_balances
    rw [List.map_map]
    have h : (Record.id ∘ applyBalances (computeBalances 0 (sortRecords store)))
        = Record.id := funext fun r => applyBalances_id _ r
    rw [h]
  · unfold update_all_balances
    rw [List.map_map]
    have h : (coreFields ∘ applyBalances (computeBalances 0 (sortRecords store)))
        = coreFields := funext fun r => by
      rw [Function.comp_apply]
      unfold coreFields
      rw [applyBalances_id, applyBalances_type, applyBalances_category,
        applyBalances_amount, applyBalances_date, applyBalances_descr]
    rw [h]

/-- **C6.** An import whose table lacks a required column aborts before any
row is processed: the outcome is the schema error page and the store is
returned unchanged. -/
theorem schema_error_aborts (t : Table) (s : Store) (h : schemaOk t = false) :
    import_export t s = (ImportOutcome.schemaError schemaErrorText, s) := by
  unfold import_export
  rw [h]
  rfl

/-- **C6 witness.** -/
theorem schema_error_aborts_witness :
    import_export noAmountTable emptyStore
      = (ImportOutcome.schemaError schemaErrorText, emptyStore) :=
  schema_error_aborts noAmountTable emptyStore (by decide)

/-- **C7.** On a schema-valid table the import inserts every valid row with a
placeholder `balance_after` of 0 and the final store applies
`update_all_balances` exactly once, to the store left by the whole insert
phase — never once per row. -/
theorem import_batch_recompute_once (t : Table) (s : Store)
    (h : schemaOk t = true) :
    (import_export t s).2.recs =
        update_all_balances
          (importRows 0 t.rows ⟨s.recs, s.nextId, 0, []⟩).recs
      ∧ ∃ news : List Record,
          (importRows 0 t.rows ⟨s.recs, s.nextId, 0, []⟩).recs
              = s.recs ++ news
            ∧ ∀ r ∈ news, r.balance_after = 0 := by
  refine ⟨?_, importRows_decomp t.rows 0 ⟨s.recs, s.nextId, 0, []⟩⟩
  unfold import_export
  rw [h]
  rfl

unseal Rat.add Rat.mul Rat.sub Rat.inv in
/-- **C7 witness.** -/
theorem import_batch_recompute_once_witness :
    (import_export witnessTable emptyStore).2.recs =
        update_all_balances
          (importRows 0 witnessTable.rows
            ⟨emptyStore.recs, emptyStore.nextId, 0, []⟩).recs
      ∧ ∃ news : List Record,
          (importRows 0 witnessTable.rows
              ⟨emptyStore.recs, emptyStore.nextId, 0, []⟩).recs
              = emptyStore.recs ++ news
            ∧ ∀ r ∈ news, r.balance_after = 0 :=
  import_batch_recompute_once witnessTable emptyStore (by decide)

unseal Rat.add Rat.mul Rat.sub Rat.inv in
/-- **C1 counterexample.** `add_transaction` runs no recompute pass and seeds
the new balance from the max-id row: after importing a future-dated income
and then adding a transaction dated today, the store's `balance_after`
values no longer satisfy the prefix-sum formula. -/
theorem add_transaction_breaks_consistency :
    ¬ balancesConsistent
        (add_transaction "2026-10-12" TxType.income "c" 5 ""
          (import_export futureTable emptyStore).2).recs := by
  decide

/-- **C1 (amended).** After `delete_transaction` and after a schema-valid
`import_export` the balance invariant holds: every record's `balance_after`
equals the signed prefix sum over the store in `(date, id)` order.
(`add_transaction` does not reestablish the invariant, as the counterexample
shows.) -/
theorem balances_consistent_after_delete_and_import (s : Store)
    (hn : idsNodup s.recs) (hf : ∀ r ∈ s.recs, r.id < s.nextId)
    (tid : Nat) (t : Table) (hsc : schemaOk t = true) :
    balancesConsistent (delete_transaction tid s).recs ∧
      balancesConsistent (import_export t s).2.recs := by
  constructor
  · unfold delete_transaction
    exact balancesConsistent_update _ (idsNodup_filter _ _ hn)
  · unfold import_export
    rw [hsc]
    show balancesConsistent
      (update_all_balances (importRows 0 t.rows ⟨s.recs, s.nextId, 0, []⟩).recs)
    exact balancesConsistent_update _
      (importRows_inv t.rows 0 ⟨s.recs, s.nextId, 0, []⟩ hf hn).2

unseal Rat.add Rat.mul Rat.sub Rat.inv in
/-- **C1 witness.** -/
theorem balances_consistent_after_delete_and_import_witness :
    balancesConsistent (delete_transaction 1 witnessStore).recs ∧
      balancesConsistent (import_export witnessTable witnessStore).2.recs :=
  balances_consistent_after_delete_and_import witnessStore (by decide)
    (by decide) 1 witnessTable (by decide)

/-- **C8.** Deleting record `r` from a consistent store with distinct ids
shifts the balance of every record strictly later than `r` in `(date, id)`
order by `-r.amount` for income and `+r.amount` for expense, and leaves the
balance of every strictly earlier record unchanged. -/
theorem delete_shifts_later_balances (s : Store) (hn : idsNodup s.recs)
    (hc : balancesConsistent s.recs) (r : Record) (hr : r ∈ s.recs)
    (t : Record) (ht : t ∈ s.recs) (hne : t.id ≠ r.id) :
    (keyLt r t → balanceOfId (delete_transaction r.id s).recs t.id =
        some (t.balance_after +
          (if r.type = TxType.income then -r.amount else r.amount)))
    ∧ (keyLt t r → balanceOfId (delete_transaction r.id s).recs t.id =
        some t.balance_after) := by
  have htl : t ∈ s.recs.filter (fun x => x.id != r.id) :=
    List.mem_filter.mpr ⟨ht, bne_iff_ne.mpr hne⟩
  have hnl : idsNodup (s.recs.filter (fun x => x.id != r.id)) :=
    idsNodup_filter _ _ hn
  have hbo : balanceOfId (delete_transaction r.id s).recs t.id =
      some (sumLe (s.recs.filter (fun x => x.id != r.id)) t) := by
    unfold delete_transaction
    exact balanceOfId_update _ t hnl htl
  have hsum := sumLe_filter_ne s.recs r hn hr t
  have hbal := hc t ht
  constructor
  · intro hlt
    rw [hbo, hsum, if_pos (keyLe_of_keyLt hlt), ← hbal]
    congr 1
    unfold signed
    cases r.type <;> (simp; try ring)
  · intro hlt
    rw [hbo, hsum, if_neg (not_keyLe_of_keyLt hlt), sub_zero, ← hbal]

/-- The earlier record of the C8 witness store. -/
def c8rA : Record :=
  { id := 1, type := TxType.income, category := "a", amount := 3,
    date := "2025-01-01", description := "", balance_after := 3 }

/-- The later record of the C8 witness store. -/
def c8rB : Record :=
  { id := 2, type := TxType.expense, category := "b", amount := 1,
    date := "2025-01-02", description := "", balance_after := 2 }

/-- A consistent two-record store. -/
def c8Store : Store := { recs := [c8rA, c8rB], nextId := 3 }

unseal Rat.add Rat.mul Rat.sub Rat.inv in
/-- **C8 witness.** Deleting the earlier income of 3 lowers the later
record's balance from 2 to -1. -/
theorem delete_shifts_later_balances_witness :
    balanceOfId (delete_transaction c8rA.id c8Store).recs c8rB.id
      = some (-1) := by
  have h := (delete_shifts_later_balances c8Store (by decide) (by decide)
    c8rA (by decide) c8rB (by decide) (by decide)).1 (by decide)
  rw [h]
  norm_num [c8rA, c8rB]

unseal Rat.add Rat.mul Rat.sub Rat.inv in
/-- **C3 counterexample.** `add_transaction` performs no validation of the
posted amount: adding a transaction with amount -5 leaves a record in the
store whose stored amount is not strictly positive. -/
theorem add_transaction_accepts_negative_amount :
    ¬ (∀ r ∈ (add_transaction "2025-01-02" TxType.expense "food" (-5) ""
        emptyStore).recs, 0 < r.amount) := by
  decide

/-- **C3 (amended).** Sign handling of stored amounts: every amount that
the spreadsheet parser accepts is non-negative (all minus signs are stripped
before parsing, so the sign can only come from the Type column), while
`add_transaction` stores the posted amount unchanged and unvalidated — zero
and negative amounts included. -/
theorem amount_sign_amended :
    (∀ (c : Cell) (a : Rat), parseAmountCell c = some a → 0 ≤ a)
    ∧ (∀ (today : String) (ty : TxType) (cat : String) (amt : Rat)
        (desc : String) (s : Store),
        (add_transaction today ty cat amt desc s).recs.map Record.amount
          = s.recs.map Record.amount ++ [amt]) := by
  constructor
  · intro c a h
    refine parsePyFloatChars_nonneg _ (fun x hx => ?_) a h
    exact (cleanAmountChars_no_minus _ x hx).1
  · intro today ty cat amt desc s
    unfold add_transaction
    rw [List.map_append]
    rfl

unseal Rat.add Rat.mul Rat.sub Rat.inv in
/-- **C3 witness.** -/
theorem amount_sign_amended_witness : (0 : Rat) ≤ 5 :=
  amount_sign_amended.1 (Cell.str "5") 5 (by decide)

unseal Rat.add Rat.mul Rat.sub Rat.inv in
/-- **C4 counterexample.** The cleanup removes every minus sign, wherever it
occurs: the literal "1-2" — not a number, as the unstripped parse shows — is
accepted with magnitude 12 instead of producing the row error the claim
requires. -/
theorem inner_minus_accepted :
    parseAmountCell (Cell.str "1-2") = some 12
      ∧ parsePyFloatChars ("1-2".data) = none := by
  constructor
  · decide
  · decide

/-- **C4 (amended).** Amount parsing: the cell's string rendering is cleaned
by replacing every comma with a dot and deleting every minus sign and every
space (wherever they occur, not only leading), the magnitude is parsed from
the cleaned string, the transaction's sign comes only from the Type column,
and a string that still fails to parse yields the row error
"Неверный формат суммы" while the batch continues. -/
theorem amount_parsing_amended :
    (∀ s : String, parseAmountCell (Cell.str s)
        = parsePyFloatChars (cleanAmountChars s.data))
    ∧ (∀ cs : List Char, ∀ c ∈ cleanAmountChars cs, c ≠ '-' ∧ c ≠ ' ')
    ∧ (∀ cs : List Char, cleanAmountChars cs
        = cleanAmountChars (cs.map (fun c => if c = ',' then '.' else c)))
    ∧ (∀ (idx : Nat) (row : Row) (ds dd as0 : String) (ty : TxType),
        getCell row "Дата" = Cell.str ds →
        parseDateString ds = some dd →
        parseTypeCell (getCell row "Тип") = some ty →
        getCell row "Сумма" = Cell.str as0 →
        parseAmountCell (Cell.str as0) = none →
        processRow idx row = RowResult.err (rowMsg idx "Неверный формат суммы"))
    ∧ (∀ (idx : Nat) (row : Row) (st : ImpState) (m : String),
        processRow idx row = RowResult.err m →
        (importStep idx row st).recs = st.recs
          ∧ (importStep idx row st).count = st.count
          ∧ (importStep idx row st).errors = st.errors ++ [m]) := by
  refine ⟨fun s => rfl, cleanAmountChars_no_minus, ?_, ?_, ?_⟩
  · intro cs
    unfold cleanAmountChars
    rw [List.map_map]
    have h : ((fun c => if c = ',' then '.' else c) ∘
        (fun c => if c = ',' then '.' else c))
        = (fun c : Char => if c = ',' then '.' else c) := by
      funext c
      by_cases hc : c = ','
      · simp [hc]
      · simp [hc]
    rw [h]
  · intro idx row ds dd as0 ty h1 h2 h3 h4 h5
    rw [processRow_str idx row ds as0 h1 h4]
    simp only [parseDateCell, h2, h3, h5]
  · intro idx row st m h
    rw [importStep_err idx row st m h]
    exact ⟨rfl, rfl, rfl⟩

/-- The row of the C4 witness: valid date and type, unparsable amount. -/
def c4Row : Row :=
  [("Дата", Cell.str "15.01.2025"), ("Тип", Cell.str "income"),
   ("Категория", Cell.str "z"), ("Сумма", Cell.str "abc")]

unseal Rat.add Rat.mul Rat.sub Rat.inv in
/-- **C4 witness.** -/
theorem amount_parsing_amended_witness :
    processRow 0 c4Row = RowResult.err (rowMsg 0 "Неверный формат суммы")
      ∧ (importStep 0 c4Row ⟨[], 1, 0, []⟩).recs = [] := by
  have h := amount_parsing_amended.2.2.2.1 0 c4Row "15.01.2025" "2025-01-15"
    "abc" TxType.income (by decide) (by decide) (by decide) (by decide)
    (by decide)
  exact ⟨h, (amount_parsing_amended.2.2.2.2 0 c4Row ⟨[], 1, 0, []⟩ _ h).1⟩

/-- **C5.** Date parsing of the import: the four formats `%d.%m.%Y`,
`%Y-%m-%d`, `%d/%m/%Y`, `%d-%m-%Y` are probed in exactly that order and the
first success wins; a native timestamp is accepted directly; the spec's
examples parse as stated and the calendar-invalid "31.02.2025" matches no
format; a string date matching no format makes the row collect the error
"Неверный формат даты" and the row is not inserted. -/
theorem date_parsing_priority :
    (∀ s : String, parseDateString s =
      (match strptimeDate '.' DateOrder.dmy (stripWs s.data) with
       | some (y, m, d) => some (formatYmd y m d)
       | none =>
         match strptimeDate '-' DateOrder.ymd (stripWs s.data) with
         | some (y, m, d) => some (formatYmd y m d)
         | none =>
           match strptimeDate '/' DateOrder.dmy (stripWs s.data) with
           | some (y, m, d) => some (formatYmd y m d)
           | none =>
             match strptimeDate '-' DateOrder.dmy (stripWs s.data) with
             | some (y, m, d) => some (formatYmd y m d)
             | none => none))
    ∧ (∀ y m d : Nat, parseDateCell (Cell.ts y m d) = Except.ok (formatYmd y m d))
    ∧ parseDateString "15.01.2025" = some "2025-01-15"
    ∧ parseDateString "2025-01-15" = some "2025-01-15"
    ∧ parseDateString "31.02.2025" = none
    ∧ (∀ (idx : Nat) (row : Row) (ds : String),
        getCell row "Дата" = Cell.str ds →
        pdIsna (getCell row "Сумма") = false →
        parseDateString ds = none →
        processRow idx row = RowResult.err (rowMsg idx "Неверный формат даты"))
    ∧ (∀ (idx : Nat) (row : Row) (st : ImpState) (m : String),
        processRow idx row = RowResult.err m →
        (importStep idx row st).recs = st.recs) := by
  refine ⟨?_, fun y m d => rfl, by decide, by decide, by decide, ?_, ?_⟩
  · intro s
    unfold parseDateString tryFormats dateFormats
    rfl
  · intro idx row ds h1 h2 h3
    unfold processRow
    rw [h1, h2]
    simp only [pdIsna, Bool.or_false, Bool.false_eq_true, if_false,
      parseDateCell, h3]
  · intro idx row st m h
    rw [importStep_err idx row st m h]

/-- The row of the C5 witness: a calendar-invalid date. -/
def c5Row : Row :=
  [("Дата", Cell.str "31.02.2025"), ("Тип", Cell.str "доход"),
   ("Категория", Cell.str "x"), ("Сумма", Cell.str "1")]

/-- **C5 witness.** -/
theorem date_parsing_priority_witness :
    processRow 0 c5Row = RowResult.err (rowMsg 0 "Неверный формат даты")
      ∧ (importStep 0 c5Row ⟨[], 1, 0, []⟩).recs = [] := by
  have h := date_parsing_priority.2.2.2.2.2.1 0 c5Row "31.02.2025"
    (by decide) (by decide) (by decide)
  exact ⟨h, date_parsing_priority.2.2.2.2.2.2 0 c5Row ⟨[], 1, 0, []⟩ _ h⟩

/-- The row of the C9 counterexample: valid date, type and amount, category
cell missing (NaN). -/
def c9Row : Row :=
  [("Дата", Cell.str "15.01.2025"), ("Тип", Cell.str "Доход"),
   ("Категория", Cell.na), ("Сумма", Cell.str "10")]

unseal Rat.add Rat.mul Rat.sub Rat.inv in
/-- **C9 counterexample.** A missing (NaN) category cell is stored as the
literal text "nan" — Python's `str(nan)` — not as the empty string. -/
theorem missing_category_stored_as_nan :
    processRow 0 c9Row = RowResult.ok "2025-01-15" TxType.income 10 "nan" ""
      ∧ ("nan" : String) ≠ "" := by
  constructor
  · decide
  · decide

/-- **C9 (amended).** For every row whose date, type and amount validate, the
record's category is the trimmed `str()` of the Category cell and the row
never fails because of its category; an empty-string category stays the
empty string, but a missing (NaN) category becomes the literal "nan". -/
theorem category_amended :
    (∀ (idx : Nat) (row : Row) (ds dd as0 : String) (ty : TxType) (a : Rat),
        getCell row "Дата" = Cell.str ds →
        parseDateString ds = some dd →
        parseTypeCell (getCell row "Тип") = some ty →
        getCell row "Сумма" = Cell.str as0 →
        parseAmountCell (Cell.str as0) = some a →
        processRow idx row = RowResult.ok dd ty a
          (pyStrip (cellStr (getCell row "Категория"))) (descrOf row))
    ∧ pyStrip (cellStr (Cell.str "")) = ""
    ∧ pyStrip (cellStr Cell.na) = "nan" := by
  refine ⟨?_, by decide, by decide⟩
  intro idx row ds dd as0 ty a h1 h2 h3 h4 h5
  rw [processRow_str idx row ds as0 h1 h4]
  simp only [parseDateCell, h2, h3, h5]

/-- The row of the C9 witness: an explicitly empty category. -/
def c9wRow : Row :=
  [("Дата", Cell.str "15.01.2025"), ("Тип", Cell.str "Доход"),
   ("Категория", Cell.str ""), ("Сумма", Cell.str "10")]

unseal Rat.add Rat.mul Rat.sub Rat.inv in
/-- **C9 witness.** -/
theorem category_amended_witness :
    processRow 0 c9wRow = RowResult.ok "2025-01-15" TxType.income 10
      (pyStrip (cellStr (getCell c9wRow "Категория"))) (descrOf c9wRow) :=
  category_amended.1 0 c9wRow "15.01.2025" "2025-01-15" "10" TxType.income 10
    (by decide) (by decide) (by decide) (by decide) (by decide)
